import Mathlib

/-!
Shallow embedding of the double-buffered input-method state machine of
`src/arc_input_method.rs` (struct `IMServiceArc` and its methods).

A Rust `String` is modelled as the list of its characters (`List Char`);
byte offsets into the UTF-8 encoding are computed with `Char.utf8Size`,
which agrees with Rust's `char::len_utf8`.  Operations that can panic in
Rust (`String::insert_str` / `str::split_at` off a char boundary or out of
range) return `Option`, with `none` standing for the panic.  The wayland
proxy handle and the two connector objects are external collaborators:
the requests sent on the proxy and the notifications sent to the
connectors are returned explicitly as lists.
-/

namespace IMS

/-- Reason the surrounding text changed (`zwp_text_input_v3::ChangeCause`);
an opaque pass-through enum with the two protocol variants. -/
inductive ChangeCause where
  | InputMethod
  | Other
deriving DecidableEq

/-- Content hint bitflags (`zwp_text_input_v3::ContentHint`); pass-through
value, modelled by its raw bits. -/
structure ContentHint where
  bits : Nat
deriving DecidableEq

/-- The default hint `ContentHint::None` (no flags set). -/
def ContentHint.None : ContentHint := ⟨0⟩

/-- Content purpose (`zwp_text_input_v3::ContentPurpose`); pass-through
value, modelled by its raw discriminant. -/
structure ContentPurpose where
  code : Nat
deriving DecidableEq

/-- The default purpose `ContentPurpose::Normal` (discriminant 0). -/
def ContentPurpose.Normal : ContentPurpose := ⟨0⟩

/-- Error when sending a request to the wayland-client (`SubmitError`). -/
inductive SubmitError where
  | NotActive
deriving DecidableEq

deriving instance DecidableEq for Except

/-- Requests emitted on the `ZwpInputMethodV2` proxy. -/
inductive Request where
  | commit_string (text : List Char)
  | delete_surrounding_text (before after : Nat)
  | commit (serial : Nat)
  | destroy
deriving DecidableEq

/-- Notifications sent to the two connectors (`IMVisibility`,
`HintPurpose` and `ReceiveSurroundingText`). -/
inductive Notification where
  | activate_im
  | deactivate_im
  | set_hint_purpose (hint : ContentHint) (purpose : ContentPurpose)
  | text_changed (left right : List Char)
deriving DecidableEq

/-- The modulus of the wrapping 32-bit serial counter (`Wrapping<u32>`). -/
def serialMod : Nat := 2 ^ 32

/-- UTF-8 byte length of a string, as Rust's `String::len`. -/
def byteLen : List Char → Nat
  | [] => 0
  | c :: cs => c.utf8Size + byteLen cs

/-- Rust's `str::split_at` at a byte index: `some (left, right)` when the
index is a char boundary within range, `none` (panic) otherwise. -/
def splitAtByte (cs : List Char) (n : Nat) : Option (List Char × List Char) :=
  if n = 0 then
    some ([], cs)
  else
    match cs with
    | [] => none
    | c :: cs' =>
      if n < c.utf8Size then none
      else
        match splitAtByte cs' (n - c.utf8Size) with
        | none => none
        | some (l, r) => some (c :: l, r)

/-- Rust's `String::insert_str` at a byte index (`none` models the panic
off a char boundary or out of range). -/
def insertStr (cs : List Char) (n : Nat) (t : List Char) : Option (List Char) :=
  match splitAtByte cs n with
  | none => none
  | some (l, r) => some (l ++ t ++ r)

/-- Popping `n` characters off the end of a string, as `n` iterations of
Rust's `String::pop` (a no-op on the empty string). -/
def popN : Nat → List Char → List Char
  | 0, cs => cs
  | n + 1, cs => popN n cs.dropLast

/-- State of the input method (struct `IMProtocolState`). -/
structure IMProtocolState where
  surrounding_text : List Char
  cursor : Nat
  content_purpose : ContentPurpose
  content_hint : ContentHint
  text_change_cause : ChangeCause
  active : Bool
deriving DecidableEq

/-- The `Default` impl of `IMProtocolState`. -/
def IMProtocolState.default : IMProtocolState :=
  { surrounding_text := []
    cursor := 0
    content_hint := ContentHint.None
    content_purpose := ContentPurpose.Normal
    text_change_cause := ChangeCause.InputMethod
    active := false }

/-- The engine state of `IMServiceArc`: the two buffered protocol states
and the wrapping 32-bit serial (kept `< serialMod` as a `Nat`).  The proxy
and connector fields of the Rust struct are external collaborators and
carry no protocol state. -/
structure IMServiceArc where
  pending : IMProtocolState
  current : IMProtocolState
  serial : Nat
deriving DecidableEq

/-- The engine state built by `IMServiceArc::new`: both buffers default,
serial `Wrapping(0u32)`. -/
def initState : IMServiceArc :=
  { pending := IMProtocolState.default
    current := IMProtocolState.default
    serial := 0 }

/-- Handler for the `activate` event: replaces `pending` wholesale by a
default state with `active = true`. -/
def handle_activate (s : IMServiceArc) : IMServiceArc :=
  { s with pending := { IMProtocolState.default with active := true } }

/-- Handler for the `deactivate` event: clears `pending.active`. -/
def handle_deactivate (s : IMServiceArc) : IMServiceArc :=
  { s with pending := { s.pending with active := false } }

/-- Handler for the `surrounding_text` event: overwrites the pending text
and cursor with the server-supplied values; `anchor` is dropped. -/
def handle_surrounding_text (s : IMServiceArc) (text : List Char)
    (cursor _anchor : Nat) : IMServiceArc :=
  { s with pending := { s.pending with surrounding_text := text, cursor := cursor } }

/-- Handler for the `text_change_cause` event. -/
def handle_text_change_cause (s : IMServiceArc) (cause : ChangeCause) : IMServiceArc :=
  { s with pending := { s.pending with text_change_cause := cause } }

/-- Handler for the `content_type` event. -/
def handle_content_type (s : IMServiceArc) (hint : ContentHint)
    (purpose : ContentPurpose) : IMServiceArc :=
  { s with pending := { s.pending with content_hint := hint, content_purpose := purpose } }

/-- The promotion routine `pending_becomes_current`: computes the change
flags against the pre-promotion `current`, copies `pending` into
`current`, then notifies the content connector (when the text changed)
and the ui connector (when the active flag flipped).  `none` models the
panic of `split_at` inside the text-changed notification. -/
def pending_becomes_current (s : IMServiceArc) :
    Option (IMServiceArc × List Notification) :=
  let active_changed := Bool.xor s.current.active s.pending.active
  let s' : IMServiceArc := { s with current := s.pending }
  let activeNotifs : List Notification :=
    if active_changed then
      if s'.current.active then
        [Notification.activate_im,
         Notification.set_hint_purpose s'.current.content_hint s'.current.content_purpose]
      else
        [Notification.deactivate_im]
    else []
  if s.current.surrounding_text = s.pending.surrounding_text then
    some (s', activeNotifs)
  else
    match splitAtByte s'.current.surrounding_text s'.current.cursor with
    | none => none
    | some (left, right) =>
      some (s', Notification.text_changed left right :: activeNotifs)

/-- Handler for the `done` event: invokes promotion. -/
def handle_done (s : IMServiceArc) : Option (IMServiceArc × List Notification) :=
  pending_becomes_current s

/-- Handler for the `unavailable` event: destroys the proxy, forces
`current.active = false` and tells the ui connector to deactivate. -/
def handle_unavailable (s : IMServiceArc) :
    IMServiceArc × List Request × List Notification :=
  ({ s with current := { s.current with active := false } },
   [Request.destroy], [Notification.deactivate_im])

/-- Request method `commit_string`: on an active `current`, inserts the
text into `pending.surrounding_text` at `pending.cursor`, advances the
cursor by the byte length of the text and sends the request; on an
inactive `current`, fails with `NotActive`. -/
def commit_string (s : IMServiceArc) (text : List Char) :
    Option (Except SubmitError Unit × IMServiceArc × List Request) :=
  match s.current.active with
  | true =>
    match insertStr s.pending.surrounding_text s.pending.cursor text with
    | none => none
    | some newText =>
      some (Except.ok (),
        { s with pending := { s.pending with
            surrounding_text := newText
            cursor := s.pending.cursor + byteLen text } },
        [Request.commit_string text])
  | false => some (Except.error SubmitError.NotActive, s, [])

/-- Helper `limit_before_after`: clamps the two deletion counts to the
byte distance from the pending cursor to each end of the pending text. -/
def limit_before_after (s : IMServiceArc) (before after : Nat) : Nat × Nat :=
  (min s.pending.cursor before,
   min (byteLen s.pending.surrounding_text - s.pending.cursor) after)

/-- Helper `update_cursor_and_surrounding_text`: splits the pending text
at the pending cursor, pops `before` characters off the left part, skips
`after` characters of the right part, and re-joins. -/
def update_cursor_and_surrounding_text (s : IMServiceArc) (before after : Nat) :
    Option IMServiceArc :=
  match splitAtByte s.pending.surrounding_text s.pending.cursor with
  | none => none
  | some (left, right) =>
    let newLeft := popN before left
    let newRight := right.drop after
    some { s with pending := { s.pending with
      surrounding_text := newLeft ++ newRight
      cursor := byteLen newLeft } }

/-- Request method `delete_surrounding_text`: on an active `current`,
clamps the counts, updates the pending buffer and sends the request with
the clamped counts; else fails with `NotActive`. -/
def delete_surrounding_text (s : IMServiceArc) (before after : Nat) :
    Option (Except SubmitError Unit × IMServiceArc × List Request) :=
  match s.current.active with
  | true =>
    let ba := limit_before_after s before after
    match update_cursor_and_surrounding_text s ba.1 ba.2 with
    | none => none
    | some s' =>
      some (Except.ok (), s', [Request.delete_surrounding_text ba.1 ba.2])
  | false => some (Except.error SubmitError.NotActive, s, [])

/-- Request method `commit`: on an active `current`, sends `commit` with
the current serial, increments the serial (wrapping mod `serialMod`), then
promotes pending to current; else fails with `NotActive`. -/
def commit (s : IMServiceArc) :
    Option (Except SubmitError Unit × IMServiceArc × List Request × List Notification) :=
  match s.current.active with
  | true =>
    let req := Request.commit s.serial
    let s₁ : IMServiceArc := { s with serial := (s.serial + 1) % serialMod }
    match pending_becomes_current s₁ with
    | none => none
    | some (s₂, notifs) => some (Except.ok (), s₂, [req], notifs)
  | false => some (Except.error SubmitError.NotActive, s, [], [])

/-- Accessor `is_active`. -/
def is_active (s : IMServiceArc) : Bool := s.current.active

/-- Accessor `get_surrounding_text`, exactly as the code has it: it
splits the PENDING surrounding text at the CURRENT cursor. -/
def get_surrounding_text (s : IMServiceArc) : Option (List Char × List Char) :=
  splitAtByte s.pending.surrounding_text s.current.cursor

/-- The accessor as the specification and the function's own doc comment
describe it, for comparison: the split of `current.surrounding_text` at
`current.cursor`. -/
def get_surrounding_textSpec (s : IMServiceArc) : Option (List Char × List Char) :=
  splitAtByte s.current.surrounding_text s.current.cursor

/-- The cursor of a protocol state is a valid split point (in range and
on a character boundary) of its surrounding text. -/
def cursorOk (st : IMProtocolState) : Bool :=
  (splitAtByte st.surrounding_text st.cursor).isSome

/-- Both buffered protocol states have valid cursors. -/
def stateOk (s : IMServiceArc) : Prop :=
  cursorOk s.pending = true ∧ cursorOk s.current = true

/-- One transition of the engine, as the claims range over it: any
inbound event handler (with arbitrary server-supplied arguments) or any
successful outbound request. -/
inductive Step : IMServiceArc → IMServiceArc → Prop where
  | activate (s : IMServiceArc) : Step s (handle_activate s)
  | deactivate (s : IMServiceArc) : Step s (handle_deactivate s)
  | surrounding (s : IMServiceArc) (text : List Char) (cursor anchor : Nat) :
      Step s (handle_surrounding_text s text cursor anchor)
  | cause (s : IMServiceArc) (c : ChangeCause) :
      Step s (handle_text_change_cause s c)
  | content (s : IMServiceArc) (hint : ContentHint) (purpose : ContentPurpose) :
      Step s (handle_content_type s hint purpose)
  | doneEv (s s' : IMServiceArc) (ns : List Notification) :
      handle_done s = some (s', ns) → Step s s'
  | unavailable (s : IMServiceArc) : Step s (handle_unavailable s).1
  | commitStringReq (s s' : IMServiceArc) (text : List Char) (rs : List Request) :
      commit_string s text = some (Except.ok (), s', rs) → Step s s'
  | deleteReq (s s' : IMServiceArc) (b a : Nat) (rs : List Request) :
      delete_surrounding_text s b a = some (Except.ok (), s', rs) → Step s s'
  | commitReq (s s' : IMServiceArc) (rs : List Request) (ns : List Notification) :
      commit s = some (Except.ok (), s', rs, ns) → Step s s'

/-- One transition where the server respects the protocol: identical to
`Step` except that a `surrounding_text` event must deliver a cursor that
is a valid split point of the delivered text. -/
inductive GoodStep : IMServiceArc → IMServiceArc → Prop where
  | activate (s : IMServiceArc) : GoodStep s (handle_activate s)
  | deactivate (s : IMServiceArc) : GoodStep s (handle_deactivate s)
  | surrounding (s : IMServiceArc) (text : List Char) (cursor anchor : Nat) :
      (splitAtByte text cursor).isSome = true →
      GoodStep s (handle_surrounding_text s text cursor anchor)
  | cause (s : IMServiceArc) (c : ChangeCause) :
      GoodStep s (handle_text_change_cause s c)
  | content (s : IMServiceArc) (hint : ContentHint) (purpose : ContentPurpose) :
      GoodStep s (handle_content_type s hint purpose)
  | doneEv (s s' : IMServiceArc) (ns : List Notification) :
      handle_done s = some (s', ns) → GoodStep s s'
  | unavailable (s : IMServiceArc) : GoodStep s (handle_unavailable s).1
  | commitStringReq (s s' : IMServiceArc) (text : List Char) (rs : List Request) :
      commit_string s text = some (Except.ok (), s', rs) → GoodStep s s'
  | deleteReq (s s' : IMServiceArc) (b a : Nat) (rs : List Request) :
      delete_surrounding_text s b a = some (Except.ok (), s', rs) → GoodStep s s'
  | commitReq (s s' : IMServiceArc) (rs : List Request) (ns : List Notification) :
      commit s = some (Except.ok (), s', rs, ns) → GoodStep s s'

/-- States reachable from the freshly created engine by arbitrary events
and successful requests. -/
def Reachable (s : IMServiceArc) : Prop :=
  Relation.ReflTransGen Step initState s

/-- States reachable when the server only ever sends valid split points
in `surrounding_text` events. -/
def GoodReachable (s : IMServiceArc) : Prop :=
  Relation.ReflTransGen GoodStep initState s

/-- Runs `commit` the given number of times, collecting the requests sent
to the server; `none` if any call fails or panics. -/
def commitN : Nat → IMServiceArc → Option (List Request × IMServiceArc)
  | 0, s => some ([], s)
  | n + 1, s =>
    match commit s with
    | some (Except.ok _, s', reqs, _) =>
      match commitN n s' with
      | some (rest, s'') => some (reqs ++ rest, s'')
      | none => none
    | _ => none

/-- An active session with empty surrounding text and cursor 0 in both
buffers, as reached by `activate` followed by `done` on a fresh engine. -/
def activeEmptyState : IMServiceArc :=
  { pending := { IMProtocolState.default with active := true }
    current := { IMProtocolState.default with active := true }
    serial := 0 }

/-- A fresh engine after a single `surrounding_text("a", 0, 0)` event:
`pending.surrounding_text` holds `"a"` while `current` is untouched. -/
def pendingEditedState : IMServiceArc :=
  { initState with
    pending := { IMProtocolState.default with surrounding_text := ['a'] } }

/-- An active session whose pending text is the two-byte character `"é"`
with the cursor at its end (byte offset 2). -/
def accentState : IMServiceArc :=
  { pending := { IMProtocolState.default with
      surrounding_text := ['é'], cursor := 2, active := true }
    current := { IMProtocolState.default with active := true }
    serial := 0 }

/-- An active session with pending text `"hello"` and the cursor at 5. -/
def helloState : IMServiceArc :=
  { pending := { IMProtocolState.default with
      surrounding_text := ['h', 'e', 'l', 'l', 'o'], cursor := 5, active := true }
    current := { IMProtocolState.default with active := true }
    serial := 0 }

/-- The state after `commit_string("abc")` on `activeEmptyState`. -/
def abcState : IMServiceArc :=
  { pending := { IMProtocolState.default with
      surrounding_text := ['a', 'b', 'c'], cursor := 3, active := true }
    current := { IMProtocolState.default with active := true }
    serial := 0 }

/-- The state after `commit()` on `abcState`. -/
def abcCommitted : IMServiceArc :=
  { pending := abcState.pending
    current := abcState.pending
    serial := 1 }

theorem byteLen_append (a b : List Char) :
    byteLen (a ++ b) = byteLen a + byteLen b := by
  induction a with
  | nil => simp [byteLen]
  | cons c a ih => simp [byteLen, ih, Nat.add_assoc]

theorem splitAtByte_zero (cs : List Char) : splitAtByte cs 0 = some ([], cs) := by
  rw [splitAtByte.eq_def]
  simp

/-- Splitting a concatenation at the byte length of its left part
recovers exactly the two parts. -/
theorem splitAtByte_append (l r : List Char) :
    splitAtByte (l ++ r) (byteLen l) = some (l, r) := by
  induction l with
  | nil => simpa [byteLen] using splitAtByte_zero r
  | cons c l ih =>
    have hpos : 0 < c.utf8Size := Char.utf8Size_pos c
    have hne : c.utf8Size + byteLen l ≠ 0 := by omega
    have hlt : ¬ (c.utf8Size + byteLen l < c.utf8Size) := by omega
    rw [List.cons_append, byteLen]
    rw [splitAtByte.eq_def, if_neg hne]
    simp only [hlt, if_false]
    have : c.utf8Size + byteLen l - c.utf8Size = byteLen l := by omega
    rw [this, ih]

/-- A successful byte split decomposes the string and the index. -/
theorem splitAtByte_eq_some (cs : List Char) (n : Nat) (l r : List Char)
    (h : splitAtByte cs n = some (l, r)) : cs = l ++ r ∧ byteLen l = n := by
  induction cs generalizing n l r with
  | nil =>
    rw [splitAtByte.eq_def] at h
    by_cases hn : n = 0
    · subst hn
      simp at h
      obtain ⟨hl, hr⟩ := h
      subst hl
      simp [hr, byteLen]
    · simp [hn] at h
  | cons c cs ih =>
    rw [splitAtByte.eq_def] at h
    by_cases hn : n = 0
    · subst hn
      simp at h
      obtain ⟨hl, hr⟩ := h
      subst hl
      simp [hr, byteLen]
    · simp only [hn, if_false] at h
      by_cases hlt : n < c.utf8Size
      · simp [hlt] at h
      · simp only [hlt, if_false] at h
        cases hrec : splitAtByte cs (n - c.utf8Size) with
        | none => rw [hrec] at h; exact absurd h (by simp)
        | some p =>
          obtain ⟨l', r'⟩ := p
          rw [hrec] at h
          simp at h
          obtain ⟨hl, hr⟩ := h
          obtain ⟨hcs, hlen⟩ := ih (n - c.utf8Size) l' r' hrec
          subst hl hr
          constructor
          · simp [hcs]
          · simp [byteLen, hlen]
            omega

/-- A successful split implies the index is within the byte length. -/
theorem le_byteLen_of_splitAtByte (cs : List Char) (n : Nat) (l r : List Char)
    (h : splitAtByte cs n = some (l, r)) : n ≤ byteLen cs := by
  obtain ⟨hcs, hlen⟩ := splitAtByte_eq_some cs n l r h
  rw [hcs, byteLen_append, ← hlen]
  omega

theorem cursorOk_iff (st : IMProtocolState) :
    cursorOk st = true ↔ ∃ l r, splitAtByte st.surrounding_text st.cursor = some (l, r) := by
  unfold cursorOk
  constructor
  · intro h
    obtain ⟨p, hp⟩ := Option.isSome_iff_exists.mp h
    exact ⟨p.1, p.2, hp⟩
  · rintro ⟨l, r, hp⟩
    simp [hp]

/-- Promotion always replaces `current` by `pending` and leaves `pending`
and `serial` alone (inversion of `pending_becomes_current`). -/
theorem pending_becomes_current_ok (s s' : IMServiceArc) (ns : List Notification)
    (h : pending_becomes_current s = some (s', ns)) :
    s' = { s with current := s.pending } := by
  unfold pending_becomes_current at h
  by_cases htext : s.current.surrounding_text = s.pending.surrounding_text
  · simp [htext] at h
    exact h.1.symm
  · simp only [htext, if_false] at h
    cases hsplit : splitAtByte s.pending.surrounding_text s.pending.cursor with
    | none => simp [hsplit] at h
    | some p =>
      obtain ⟨l, r⟩ := p
      simp [hsplit] at h
      exact h.1.symm

/-- Full characterization of promotion when the pending cursor is a
valid split point: current becomes a copy of pending, the text-changed
notification (computed against the pre-promotion current, carrying the
split of the new current text at the new current cursor) precedes the
visibility notifications, and each fires at most once. -/
theorem pending_becomes_current_spec (s : IMServiceArc) (l r : List Char)
    (hsplit : splitAtByte s.pending.surrounding_text s.pending.cursor = some (l, r)) :
    pending_becomes_current s =
      some ({ s with current := s.pending },
        (if s.current.surrounding_text = s.pending.surrounding_text then []
         else [Notification.text_changed l r]) ++
        (if Bool.xor s.current.active s.pending.active then
          (if s.pending.active then
            [Notification.activate_im,
             Notification.set_hint_purpose s.pending.content_hint s.pending.content_purpose]
           else [Notification.deactivate_im])
         else [])) := by
  unfold pending_becomes_current
  by_cases htext : s.current.surrounding_text = s.pending.surrounding_text
  · simp [htext]
  · simp [htext, hsplit]

/-- Forward characterization of `commit_string` on an active session with
a valid pending cursor. -/
theorem commit_string_spec (s : IMServiceArc) (text l r : List Char)
    (hact : s.current.active = true)
    (hsplit : splitAtByte s.pending.surrounding_text s.pending.cursor = some (l, r)) :
    commit_string s text =
      some (Except.ok (),
        { s with pending := { s.pending with
            surrounding_text := l ++ text ++ r
            cursor := s.pending.cursor + byteLen text } },
        [Request.commit_string text]) := by
  unfold commit_string insertStr
  simp [hact, hsplit]

/-- Inversion for a successful `commit_string`: the insertion happened at
a valid split point, the cursor advanced by the byte length of the text,
and the request carried the text. -/
theorem commit_string_ok (s s' : IMServiceArc) (text : List Char) (rs : List Request)
    (h : commit_string s text = some (Except.ok (), s', rs)) :
    s.current.active = true ∧
    ∃ l r, splitAtByte s.pending.surrounding_text s.pending.cursor = some (l, r) ∧
      s' = { s with pending := { s.pending with
              surrounding_text := l ++ text ++ r
              cursor := s.pending.cursor + byteLen text } } ∧
      rs = [Request.commit_string text] := by
  cases hact : s.current.active with
  | false => unfold commit_string at h; simp [hact] at h
  | true =>
    refine ⟨rfl, ?_⟩
    cases hsplit : splitAtByte s.pending.surrounding_text s.pending.cursor with
    | none => unfold commit_string insertStr at h; simp [hact, hsplit] at h
    | some p =>
      obtain ⟨l, r⟩ := p
      rw [commit_string_spec s text l r hact hsplit] at h
      simp only [Option.some.injEq, Prod.mk.injEq] at h
      exact ⟨l, r, rfl, h.2.1.symm, h.2.2.symm⟩

/-- Forward characterization of `delete_surrounding_text` on an active
session with a valid pending cursor: the counts are clamped, `before'`
characters are popped off the left half and `after'` characters skipped
off the right half, and the request carries the clamped counts. -/
theorem delete_surrounding_text_spec (s : IMServiceArc) (before after : Nat)
    (l r : List Char) (hact : s.current.active = true)
    (hsplit : splitAtByte s.pending.surrounding_text s.pending.cursor = some (l, r)) :
    delete_surrounding_text s before after =
      some (Except.ok (),
        { s with pending := { s.pending with
            surrounding_text :=
              popN (min s.pending.cursor before) l ++
                r.drop (min (byteLen s.pending.surrounding_text - s.pending.cursor) after)
            cursor := byteLen (popN (min s.pending.cursor before) l) } },
        [Request.delete_surrounding_text (min s.pending.cursor before)
          (min (byteLen s.pending.surrounding_text - s.pending.cursor) after)]) := by
  unfold delete_surrounding_text limit_before_after update_cursor_and_surrounding_text
  simp [hact, hsplit]

/-- Inversion for a successful `delete_surrounding_text`. -/
theorem delete_surrounding_text_ok (s s' : IMServiceArc) (before after : Nat)
    (rs : List Request)
    (h : delete_surrounding_text s before after = some (Except.ok (), s', rs)) :
    s.current.active = true ∧
    ∃ l r, splitAtByte s.pending.surrounding_text s.pending.cursor = some (l, r) ∧
      s' = { s with pending := { s.pending with
              surrounding_text :=
                popN (min s.pending.cursor before) l ++
                  r.drop (min (byteLen s.pending.surrounding_text - s.pending.cursor) after)
              cursor := byteLen (popN (min s.pending.cursor before) l) } } := by
  cases hact : s.current.active with
  | false => unfold delete_surrounding_text at h; simp [hact] at h
  | true =>
    refine ⟨rfl, ?_⟩
    cases hsplit : splitAtByte s.pending.surrounding_text s.pending.cursor with
    | none =>
      unfold delete_surrounding_text limit_before_after
        update_cursor_and_surrounding_text at h
      simp [hact, hsplit] at h
    | some p =>
      obtain ⟨l, r⟩ := p
      rw [delete_surrounding_text_spec s before after l r hact hsplit] at h
      simp at h
      exact ⟨l, r, rfl, h.1.symm⟩

/-- Forward characterization of `commit` on an active session with a
valid pending cursor: it emits `commit` carrying the pre-call serial,
increments the serial mod `serialMod` and promotes pending to current. -/
theorem commit_spec (s : IMServiceArc) (l r : List Char)
    (hact : s.current.active = true)
    (hsplit : splitAtByte s.pending.surrounding_text s.pending.cursor = some (l, r)) :
    commit s =
      some (Except.ok (),
        { s with current := s.pending, serial := (s.serial + 1) % serialMod },
        [Request.commit s.serial],
        (if s.current.surrounding_text = s.pending.surrounding_text then []
         else [Notification.text_changed l r]) ++
        (if Bool.xor s.current.active s.pending.active then
          (if s.pending.active then
            [Notification.activate_im,
             Notification.set_hint_purpose s.pending.content_hint s.pending.content_purpose]
           else [Notification.deactivate_im])
         else [])) := by
  have h₁ := pending_becomes_current_spec
    { s with serial := (s.serial + 1) % serialMod } l r hsplit
  unfold commit
  simp only [hact]
  rw [h₁]
  simp [hact]

/-- Inversion for a successful `commit`. -/
theorem commit_ok (s s' : IMServiceArc) (rs : List Request) (ns : List Notification)
    (h : commit s = some (Except.ok (), s', rs, ns)) :
    s.current.active = true ∧
    s' = { s with current := s.pending, serial := (s.serial + 1) % serialMod } ∧
    rs = [Request.commit s.serial] := by
  unfold commit at h
  cases hact : s.current.active with
  | false => simp [hact] at h
  | true =>
    simp only [hact] at h
    split at h
    · simp at h
    · rename_i s₂ notifs hp
      have hs₂ := pending_becomes_current_ok _ _ _ hp
      simp only [Option.some.injEq, Prod.mk.injEq] at h
      refine ⟨rfl, ?_, h.2.2.1.symm⟩
      rw [← h.2.1, hs₂]

theorem cursorOk_of_split (st : IMProtocolState) (l r : List Char)
    (h2 : st.surrounding_text = l ++ r) (h : st.cursor = byteLen l) :
    cursorOk st = true := by
  unfold cursorOk
  rw [h2, h, splitAtByte_append]
  rfl

theorem stateOk_initState : stateOk initState := by
  constructor <;> rfl

/-- Every protocol-respecting transition preserves validity of both
cursors. -/
theorem goodStep_stateOk (s s' : IMServiceArc) (hs : stateOk s)
    (h : GoodStep s s') : stateOk s' := by
  obtain ⟨hp, hc⟩ := hs
  cases h with
  | activate =>
    exact ⟨by rfl, hc⟩
  | deactivate =>
    exact ⟨hp, hc⟩
  | surrounding text cursor anchor hgood =>
    exact ⟨hgood, hc⟩
  | cause c =>
    exact ⟨hp, hc⟩
  | content hint purpose =>
    exact ⟨hp, hc⟩
  | doneEv s' ns hdone =>
    have := pending_becomes_current_ok s s' ns hdone
    subst this
    exact ⟨hp, hp⟩
  | unavailable =>
    exact ⟨hp, hc⟩
  | commitStringReq s' text rs hok =>
    obtain ⟨-, l, r, hsplit, hs', -⟩ := commit_string_ok s s' text rs hok
    obtain ⟨-, hlen⟩ := splitAtByte_eq_some _ _ _ _ hsplit
    subst hs'
    refine ⟨cursorOk_of_split _ (l ++ text) r rfl ?_, hc⟩
    show s.pending.cursor + byteLen text = byteLen (l ++ text)
    rw [byteLen_append, hlen]
  | deleteReq s' b a rs hok =>
    obtain ⟨-, l, r, hsplit, hs'⟩ := delete_surrounding_text_ok s s' b a rs hok
    subst hs'
    exact ⟨cursorOk_of_split _ _ _ rfl rfl, hc⟩
  | commitReq s' rs ns hok =>
    obtain ⟨-, hs', -⟩ := commit_ok s s' rs ns hok
    subst hs'
    exact ⟨hp, hp⟩

/-- Validity of both cursors holds in every protocol-respecting
reachable state. -/
theorem goodReachable_stateOk (s : IMServiceArc) (h : GoodReachable s) :
    stateOk s := by
  induction h with
  | refl => exact stateOk_initState
  | tail _ hstep ih => exact goodStep_stateOk _ _ ih hstep

/-- Trace of `n` consecutive commits from a synchronized active session:
the emitted serials increase consecutively mod `serialMod` and only the
serial field of the state changes. -/
theorem commitN_spec (n : Nat) : ∀ (s : IMServiceArc),
    s.current.active = true → s.current = s.pending →
    cursorOk s.pending = true → s.serial < serialMod →
    commitN n s =
      some ((List.range n).map (fun k => Request.commit ((s.serial + k) % serialMod)),
        { s with serial := (s.serial + n) % serialMod }) := by
  induction n with
  | zero =>
    intro s _hact _hsync _hok hser
    have hmod : ({ s with serial := (s.serial + 0) % serialMod } : IMServiceArc) = s := by
      have h0 : (s.serial + 0) % serialMod = s.serial := by
        rw [Nat.add_zero]
        exact Nat.mod_eq_of_lt hser
      rw [h0]
    rw [hmod]
    rfl
  | succ n ih =>
    intro s hact hsync hok hser
    obtain ⟨l, r, hsplit⟩ := (cursorOk_iff _).mp hok
    have hcommit := commit_spec s l r hact hsplit
    have hpact : s.pending.active = true := hsync ▸ hact
    have hserpos : 0 < serialMod := by norm_num [serialMod]
    have ih₁ := ih { s with current := s.pending, serial := (s.serial + 1) % serialMod }
      hpact rfl hok (Nat.mod_lt _ hserpos)
    have hlist : Request.commit s.serial ::
        (List.range n).map
          (fun k => Request.commit (((s.serial + 1) % serialMod + k) % serialMod)) =
        (List.range (n + 1)).map (fun k => Request.commit ((s.serial + k) % serialMod)) := by
      rw [List.range_succ_eq_map, List.map_cons, List.map_map]
      congr 1
      · rw [Nat.add_zero, Nat.mod_eq_of_lt hser]
      · apply List.map_congr_left
        intro k _
        simp only [Function.comp_apply]
        rw [Nat.mod_add_mod]
        congr 2
        omega
    have harith : ((s.serial + 1) % serialMod + n) % serialMod =
        (s.serial + (n + 1)) % serialMod := by
      rw [Nat.mod_add_mod]
      congr 1
      omega
    rw [commitN.eq_def]
    simp only [hcommit, ih₁]
    rw [List.singleton_append, hlist, harith, ← hsync]

theorem commit_serial_range_cons (s0 : Nat) (hser : s0 < serialMod) (n : Nat) :
    Request.commit s0 ::
      (List.range n).map
        (fun k => Request.commit (((s0 + 1) % serialMod + k) % serialMod)) =
      (List.range (n + 1)).map (fun k => Request.commit ((s0 + k) % serialMod)) := by
  rw [List.range_succ_eq_map, List.map_cons, List.map_map]
  congr 1
  · rw [Nat.add_zero, Nat.mod_eq_of_lt hser]
  · apply List.map_congr_left
    intro k _
    simp only [Function.comp_apply]
    rw [Nat.mod_add_mod]
    congr 2
    omega

theorem commit_serial_mod_step (s0 n : Nat) :
    ((s0 + 1) % serialMod + n) % serialMod = (s0 + (n + 1)) % serialMod := by
  rw [Nat.mod_add_mod]
  congr 1
  omega

/-- Inversion trace: whatever the starting state, if `n` consecutive
`commit` calls all succeed then the emitted serials are exactly the `n`
consecutively increasing values mod `serialMod`. -/
theorem commitN_ok (n : Nat) : ∀ (s s' : IMServiceArc) (reqs : List Request),
    s.serial < serialMod →
    commitN n s = some (reqs, s') →
    reqs = (List.range n).map (fun k => Request.commit ((s.serial + k) % serialMod)) ∧
    s'.serial = (s.serial + n) % serialMod := by
  induction n with
  | zero =>
    intro s s' reqs hser h
    simp only [commitN, Option.some.injEq, Prod.mk.injEq] at h
    obtain ⟨hreqs, hs'⟩ := h
    subst hreqs
    subst hs'
    refine ⟨by simp, ?_⟩
    rw [Nat.add_zero, Nat.mod_eq_of_lt hser]
  | succ n ih =>
    intro s s' reqs hser h
    simp only [commitN] at h
    split at h
    · rename_i x s₁ reqs₁ ns heq
      obtain ⟨-, hs₁, hreqs₁⟩ := commit_ok s s₁ reqs₁ ns heq
      split at h
      · rename_i rest s₂ heq₂
        simp only [Option.some.injEq, Prod.mk.injEq] at h
        obtain ⟨hreqs, hs₂⟩ := h
        have hs₁ser : s₁.serial < serialMod := by
          rw [hs₁]
          exact Nat.mod_lt _ (by norm_num [serialMod])
        obtain ⟨hrest, hser₂⟩ := ih s₁ s₂ rest hs₁ser heq₂
        constructor
        · rw [← hreqs, hreqs₁, hrest, List.singleton_append, hs₁]
          exact commit_serial_range_cons s.serial hser n
        · rw [← hs₂, hser₂, hs₁]
          exact commit_serial_mod_step s.serial n
      · exact absurd h (by simp)
    · exact absurd h (by simp)

/-- C1: the claim states that `get_surrounding_text()` returns the
(left, right) split of `current.surrounding_text` at `current.cursor`
and never depends on `pending.surrounding_text`.  The code instead
splits `pending.surrounding_text` at `current.cursor`: after a single
`surrounding_text("a", 0, 0)` event (which leaves `current` untouched)
the result differs from the one on the fresh engine, and differs from
the split of `current.surrounding_text` that the function's own doc
comment promises. -/
theorem C1_get_surrounding_text_reads_pending :
    pendingEditedState = handle_surrounding_text initState ['a'] 0 0 ∧
    pendingEditedState.current = initState.current ∧
    get_surrounding_text pendingEditedState = some ([], ['a']) ∧
    get_surrounding_text initState = some ([], []) ∧
    get_surrounding_text pendingEditedState ≠ get_surrounding_text initState ∧
    get_surrounding_textSpec pendingEditedState = some ([], []) ∧
    get_surrounding_text pendingEditedState ≠ get_surrounding_textSpec pendingEditedState := by
  refine ⟨by decide, by decide, by decide, by decide, by decide, by decide, by decide⟩

/-- C2 (counterexample): the claimed cursor invariant fails for states
reachable through `handle_surrounding_text` with arbitrary
server-supplied text and cursor: one `surrounding_text("", 5, 0)` event
from the fresh engine leaves `pending.cursor = 5 > 0 = len("")`. -/
theorem C2_counterexample :
    ¬ (∀ s : IMServiceArc, Reachable s →
        (s.pending.cursor ≤ byteLen s.pending.surrounding_text ∧
          cursorOk s.pending = true) ∧
        (s.current.cursor ≤ byteLen s.current.surrounding_text ∧
          cursorOk s.current = true)) := by
  intro hclaim
  have hreach : Reachable (handle_surrounding_text initState [] 5 0) :=
    Relation.ReflTransGen.single (Step.surrounding initState [] 5 0)
  have h5 : (5 : Nat) ≤ 0 := (hclaim _ hreach).1.1
  omega

/-- C2 (amended): provided every `surrounding_text` event delivers a
cursor that is a valid split point of its text, every state reachable by
inbound event handlers and successful outbound requests keeps both
cursors within range and on character boundaries. -/
theorem C2_cursor_invariant :
    ∀ s : IMServiceArc, GoodReachable s →
      (s.pending.cursor ≤ byteLen s.pending.surrounding_text ∧
        cursorOk s.pending = true) ∧
      (s.current.cursor ≤ byteLen s.current.surrounding_text ∧
        cursorOk s.current = true) := by
  intro s h
  obtain ⟨hp, hc⟩ := goodReachable_stateOk s h
  obtain ⟨l, r, hsplit⟩ := (cursorOk_iff _).mp hp
  obtain ⟨l2, r2, hsplit2⟩ := (cursorOk_iff _).mp hc
  exact ⟨⟨le_byteLen_of_splitAtByte _ _ _ _ hsplit, hp⟩,
         ⟨le_byteLen_of_splitAtByte _ _ _ _ hsplit2, hc⟩⟩

/-- C2 (witness): the invariant instantiated at the fresh engine. -/
theorem C2_cursor_invariant_witness :
    (initState.pending.cursor ≤ byteLen initState.pending.surrounding_text ∧
      cursorOk initState.pending = true) ∧
    (initState.current.cursor ≤ byteLen initState.current.surrounding_text ∧
      cursorOk initState.current = true) :=
  C2_cursor_invariant initState Relation.ReflTransGen.refl

/-- C3 (counterexample): the clamped counts are byte-based but the
removal is character-based.  On pending text `"é"` (2 bytes) with the
cursor at byte 2, `delete_surrounding_text(1, 0)` clamps to
`before' = 1` yet removes the whole two-byte character, so the resulting
text has 0 bytes where the claim (`exactly before' bytes removed`)
demands `2 - 1 - 0 = 1` byte. -/
theorem C3_counterexample :
    delete_surrounding_text accentState 1 0 =
      some (Except.ok (),
        { accentState with pending := { accentState.pending with
            surrounding_text := [], cursor := 0 } },
        [Request.delete_surrounding_text 1 0]) ∧
    byteLen accentState.pending.surrounding_text = 2 ∧
    byteLen ([] : List Char) ≠
      byteLen accentState.pending.surrounding_text - 1 - 0 := by
  refine ⟨by decide, by decide, by decide⟩

/-- C3 (amended): on an active session with a valid pending cursor,
`delete_surrounding_text(before, after)` clamps the counts to
`before' = min(before, pending.cursor)` and
`after' = min(after, len - pending.cursor)`, removes `before'`
CHARACTERS ending at the cursor and `after'` CHARACTERS starting at the
cursor (on single-byte text this equals `before'`/`after'` bytes),
recomputes `pending.cursor` as the byte length of the left remainder,
and the emitted request carries the clamped counts, which never exceed
the cursor or the remaining length. -/
theorem C3_delete_clamps :
    ∀ (s : IMServiceArc) (before after : Nat) (l r : List Char),
      s.current.active = true →
      splitAtByte s.pending.surrounding_text s.pending.cursor = some (l, r) →
      delete_surrounding_text s before after =
        some (Except.ok (),
          { s with pending := { s.pending with
              surrounding_text :=
                popN (min s.pending.cursor before) l ++
                  r.drop (min (byteLen s.pending.surrounding_text - s.pending.cursor) after)
              cursor := byteLen (popN (min s.pending.cursor before) l) } },
          [Request.delete_surrounding_text (min s.pending.cursor before)
            (min (byteLen s.pending.surrounding_text - s.pending.cursor) after)]) ∧
      min s.pending.cursor before ≤ s.pending.cursor ∧
      min (byteLen s.pending.surrounding_text - s.pending.cursor) after ≤
        byteLen s.pending.surrounding_text - s.pending.cursor := by
  intro s before after l r hact hsplit
  exact ⟨delete_surrounding_text_spec s before after l r hact hsplit,
    Nat.min_le_left _ _, Nat.min_le_left _ _⟩

/-- C3 (witness): the clamp example of the specification: pending text
`"hello"`, cursor 5, `delete_surrounding_text(1000000, 1000000)` clamps
to `(5, 0)` and empties the text. -/
theorem C3_delete_clamps_witness :
    delete_surrounding_text helloState 1000000 1000000 =
      some (Except.ok (),
        { helloState with pending := { helloState.pending with
            surrounding_text := [], cursor := 0 } },
        [Request.delete_surrounding_text 5 0]) := by
  have h := C3_delete_clamps helloState 1000000 1000000
    ['h', 'e', 'l', 'l', 'o'] [] rfl (by decide)
  rw [h.1]
  decide

/-- C4: when `current.active` is false, each of the three request
methods returns `NotActive`, emits no protocol request, and leaves the
whole engine state (pending, current and serial) unchanged. -/
theorem C4_inactive_requests_fail :
    ∀ s : IMServiceArc, s.current.active = false →
      (∀ text : List Char,
        commit_string s text = some (Except.error SubmitError.NotActive, s, [])) ∧
      (∀ b a : Nat,
        delete_surrounding_text s b a =
          some (Except.error SubmitError.NotActive, s, [])) ∧
      commit s = some (Except.error SubmitError.NotActive, s, [], []) := by
  intro s hact
  refine ⟨fun text => ?_, fun b a => ?_, ?_⟩
  · unfold commit_string
    rw [hact]
  · unfold delete_surrounding_text
    rw [hact]
  · unfold commit
    rw [hact]

/-- C4 (witness): the inactive-session law at the fresh engine. -/
theorem C4_inactive_requests_fail_witness :
    commit_string initState ['x'] =
      some (Except.error SubmitError.NotActive, initState, []) ∧
    delete_surrounding_text initState 1 2 =
      some (Except.error SubmitError.NotActive, initState, []) ∧
    commit initState = some (Except.error SubmitError.NotActive, initState, [], []) := by
  have h := C4_inactive_requests_fail initState rfl
  exact ⟨h.1 ['x'], h.2.1 1 2, h.2.2⟩

/-- C5: promotion computes the change flags against the pre-promotion
`current`, replaces `current` with a copy of `pending`, notifies the
surrounding-text collaborator with the (left, right) split of the new
current text at the current cursor exactly when the text changed, and
notifies the visibility collaborator (`activate_im` then
`set_hint_purpose` when newly active, `deactivate_im` when newly
inactive) exactly when the active flag flipped — each at most once; in
particular `activate` immediately followed by `done` on a fresh engine
fires `activate_im` exactly once and `deactivate_im` not at all. -/
theorem C5_promotion_notifications :
    (∀ (s : IMServiceArc) (l r : List Char),
      splitAtByte s.pending.surrounding_text s.pending.cursor = some (l, r) →
      pending_becomes_current s =
        some ({ s with current := s.pending },
          (if s.current.surrounding_text = s.pending.surrounding_text then []
           else [Notification.text_changed l r]) ++
          (if Bool.xor s.current.active s.pending.active then
            (if s.pending.active then
              [Notification.activate_im,
               Notification.set_hint_purpose s.pending.content_hint
                 s.pending.content_purpose]
             else [Notification.deactivate_im])
           else []))) ∧
    handle_done (handle_activate initState) =
      some (activeEmptyState,
        [Notification.activate_im,
         Notification.set_hint_purpose ContentHint.None ContentPurpose.Normal]) ∧
    List.count Notification.activate_im
      [Notification.activate_im,
       Notification.set_hint_purpose ContentHint.None ContentPurpose.Normal] = 1 ∧
    List.count Notification.deactivate_im
      [Notification.activate_im,
       Notification.set_hint_purpose ContentHint.None ContentPurpose.Normal] = 0 := by
  refine ⟨fun s l r hsplit => pending_becomes_current_spec s l r hsplit,
    by decide, by decide, by decide⟩

/-- C5 (witness): promotion applied to the engine holding a pending
server edit: the text-changed notification fires once, the visibility
notifications do not. -/
theorem C5_promotion_notifications_witness :
    pending_becomes_current pendingEditedState =
      some ({ pendingEditedState with current := pendingEditedState.pending },
        [Notification.text_changed [] ['a']]) := by
  have h := C5_promotion_notifications.1 pendingEditedState [] ['a'] (by decide)
  rw [h]
  decide

/-- C6: the serial starts at 0, is never changed by a server-initiated
promotion (`handle_done`), and a successful `commit` emits the request
carrying the pre-call serial before incrementing it by one wrapping
modulo `2 ^ 32`; hence `n` consecutive successful commits from a
synchronized active session emit the `n` consecutively increasing
serials mod `2 ^ 32`. -/
theorem C6_commit_serial :
    serialMod = 2 ^ 32 ∧
    initState.serial = 0 ∧
    (∀ (s s' : IMServiceArc) (ns : List Notification),
      handle_done s = some (s', ns) → s'.serial = s.serial) ∧
    (∀ (s : IMServiceArc) (l r : List Char),
      s.current.active = true →
      splitAtByte s.pending.surrounding_text s.pending.cursor = some (l, r) →
      ∃ ns, commit s =
        some (Except.ok (),
          { s with current := s.pending, serial := (s.serial + 1) % serialMod },
          [Request.commit s.serial], ns)) ∧
    (∀ (n : Nat) (s : IMServiceArc),
      s.current.active = true → s.current = s.pending →
      cursorOk s.pending = true → s.serial < serialMod →
      commitN n s =
        some ((List.range n).map (fun k => Request.commit ((s.serial + k) % serialMod)),
          { s with serial := (s.serial + n) % serialMod })) ∧
    (∀ (n : Nat) (s s' : IMServiceArc) (reqs : List Request),
      s.serial < serialMod →
      commitN n s = some (reqs, s') →
      reqs = (List.range n).map (fun k => Request.commit ((s.serial + k) % serialMod)) ∧
      s'.serial = (s.serial + n) % serialMod) := by
  refine ⟨rfl, rfl, ?_, ?_, ?_, ?_⟩
  · intro s s' ns h
    have hs' := pending_becomes_current_ok s s' ns h
    subst hs'
    rfl
  · intro s l r hact hsplit
    exact ⟨_, commit_spec s l r hact hsplit⟩
  · intro n s hact hsync hok hser
    exact commitN_spec n s hact hsync hok hser
  · intro n s s' reqs hser h
    exact commitN_ok n s s' reqs hser h

/-- C6 (witness): three consecutive commits from the synchronized active
session emit serials 0, 1, 2 and leave the serial at 3. -/
theorem C6_commit_serial_witness :
    commitN 3 activeEmptyState =
      some ([Request.commit 0, Request.commit 1, Request.commit 2],
        { activeEmptyState with serial := 3 }) := by
  have h := C6_commit_serial.2.2.2.2.1 3 activeEmptyState rfl rfl rfl
    (by decide)
  rw [h]
  decide

/-- C7: a successful `commit_string(text)` inserts the text into
`pending.surrounding_text` at byte offset `pending.cursor`, advances the
cursor by `len(text)` bytes, emits the request with that text and leaves
`current` and `serial` untouched; and on the active empty session,
`commit_string("abc")` followed by `commit()` makes
`get_surrounding_text()` return `("abc", "")`. -/
theorem C7_commit_string_inserts :
    (∀ (s : IMServiceArc) (text l r : List Char),
      s.current.active = true →
      splitAtByte s.pending.surrounding_text s.pending.cursor = some (l, r) →
      commit_string s text =
        some (Except.ok (),
          { s with pending := { s.pending with
              surrounding_text := l ++ text ++ r
              cursor := s.pending.cursor + byteLen text } },
          [Request.commit_string text])) ∧
    (∀ (s s' : IMServiceArc) (text : List Char) (rs : List Request),
      commit_string s text = some (Except.ok (), s', rs) →
      s'.current = s.current ∧ s'.serial = s.serial) ∧
    commit_string activeEmptyState ['a', 'b', 'c'] =
      some (Except.ok (), abcState, [Request.commit_string ['a', 'b', 'c']]) ∧
    commit abcState =
      some (Except.ok (), abcCommitted, [Request.commit 0],
        [Notification.text_changed ['a', 'b', 'c'] []]) ∧
    get_surrounding_text abcCommitted = some (['a', 'b', 'c'], []) := by
  refine ⟨fun s text l r hact hsplit => commit_string_spec s text l r hact hsplit,
    ?_, by decide, by decide, by decide⟩
  intro s s' text rs h
  obtain ⟨-, l, r, -, hs', -⟩ := commit_string_ok s s' text rs h
  subst hs'
  exact ⟨rfl, rfl⟩

/-- C7 (witness): inserting `"x"` into the active empty session. -/
theorem C7_commit_string_inserts_witness :
    commit_string activeEmptyState ['x'] =
      some (Except.ok (),
        { activeEmptyState with pending := { activeEmptyState.pending with
            surrounding_text := ['x'], cursor := 1 } },
        [Request.commit_string ['x']]) := by
  have h := C7_commit_string_inserts.1 activeEmptyState ['x'] [] [] rfl (by decide)
  rw [h]
  decide

/-- C8 (counterexample): not every inbound event handler mutates only
`pending`: `handle_unavailable` writes `current.active` directly, so on
the active session it changes `current` while leaving `pending` alone. -/
theorem C8_counterexample :
    activeEmptyState.current.active = true ∧
    (handle_unavailable activeEmptyState).1.pending = activeEmptyState.pending ∧
    (handle_unavailable activeEmptyState).1.current ≠ activeEmptyState.current := by
  refine ⟨by decide, by decide, by decide⟩

/-- C8 (amended): every inbound event handler except `handle_done`
(which runs the promotion routine) and `handle_unavailable` mutates only
`pending`, leaving `current` and `serial` unchanged; `handle_deactivate`
changes exactly `pending.active` to false; `handle_unavailable` changes
exactly `current.active` to false. -/
theorem C8_handlers_mutate_pending :
    (∀ s : IMServiceArc,
      (handle_activate s).current = s.current ∧ (handle_activate s).serial = s.serial) ∧
    (∀ s : IMServiceArc,
      handle_deactivate s = { s with pending := { s.pending with active := false } }) ∧
    (∀ (s : IMServiceArc) (text : List Char) (cursor anchor : Nat),
      (handle_surrounding_text s text cursor anchor).current = s.current ∧
      (handle_surrounding_text s text cursor anchor).serial = s.serial) ∧
    (∀ (s : IMServiceArc) (c : ChangeCause),
      (handle_text_change_cause s c).current = s.current ∧
      (handle_text_change_cause s c).serial = s.serial) ∧
    (∀ (s : IMServiceArc) (hint : ContentHint) (purpose : ContentPurpose),
      (handle_content_type s hint purpose).current = s.current ∧
      (handle_content_type s hint purpose).serial = s.serial) ∧
    (∀ s : IMServiceArc,
      (handle_unavailable s).1 =
        { s with current := { s.current with active := false } }) :=
  ⟨fun _ => ⟨rfl, rfl⟩, fun _ => rfl, fun _ _ _ _ => ⟨rfl, rfl⟩,
   fun _ _ => ⟨rfl, rfl⟩, fun _ _ _ => ⟨rfl, rfl⟩, fun _ => rfl⟩

/-- C9: promotion (whether by `handle_done` or by a successful
`commit`) replaces `current` with a copy of `pending` and never resets
`pending`, so immediately afterwards `pending = current`; only
`handle_activate` resets `pending` (to a default state with
`active = true`). -/
theorem C9_promotion_copies_pending :
    (∀ (s s' : IMServiceArc) (ns : List Notification),
      handle_done s = some (s', ns) →
      s' = { s with current := s.pending } ∧ s'.pending = s'.current) ∧
    (∀ (s s' : IMServiceArc) (rs : List Request) (ns : List Notification),
      commit s = some (Except.ok (), s', rs, ns) →
      s'.pending = s.pending ∧ s'.current = s.pending ∧ s'.pending = s'.current) ∧
    (∀ s : IMServiceArc,
      (handle_activate s).pending = { IMProtocolState.default with active := true }) := by
  refine ⟨?_, ?_, fun _ => rfl⟩
  · intro s s' ns h
    have hs' := pending_becomes_current_ok s s' ns h
    subst hs'
    exact ⟨rfl, rfl⟩
  · intro s s' rs ns h
    obtain ⟨-, hs', -⟩ := commit_ok s s' rs ns h
    subst hs'
    exact ⟨rfl, rfl, rfl⟩

/-- C9 (witness): after the `done`-triggered promotion of the engine
holding a pending server edit, pending and current coincide. -/
theorem C9_promotion_copies_pending_witness :
    { pendingEditedState with current := pendingEditedState.pending }.pending =
      { pendingEditedState with current := pendingEditedState.pending }.current := by
  have hdone : handle_done pendingEditedState =
      some ({ pendingEditedState with current := pendingEditedState.pending },
        [Notification.text_changed [] ['a']]) := by decide
  exact (C9_promotion_copies_pending.1 pendingEditedState _ _ hdone).2

/-- C10: `handle_unavailable` changes only `current.active` (to false)
in the engine state, besides emitting `destroy` and notifying the
visibility collaborator to deactivate; `pending` is untouched, so when
`pending.active` is still true a subsequent `handle_done` makes
`current.active` true again and the request methods succeed again — the
engine does not make `unavailable` terminal. -/
theorem C10_unavailable_not_terminal :
    ∀ (s s' : IMServiceArc) (ns : List Notification),
      handle_unavailable s =
        ({ s with current := { s.current with active := false } },
         [Request.destroy], [Notification.deactivate_im]) ∧
      (s.pending.active = true →
        handle_done (handle_unavailable s).1 = some (s', ns) →
        s'.current.active = true ∧ is_active s' = true ∧
        (∀ (text l r : List Char),
          splitAtByte s'.pending.surrounding_text s'.pending.cursor = some (l, r) →
          commit_string s' text =
            some (Except.ok (),
              { s' with pending := { s'.pending with
                  surrounding_text := l ++ text ++ r
                  cursor := s'.pending.cursor + byteLen text } },
              [Request.commit_string text]))) := by
  intro s s' ns
  refine ⟨rfl, fun hpend hdone => ?_⟩
  have hs' := pending_becomes_current_ok _ _ _ hdone
  subst hs'
  refine ⟨hpend, hpend, fun text l r hsplit => ?_⟩
  exact commit_string_spec _ text l r hpend hsplit

/-- C10 (witness): on the active empty session, `unavailable` followed
by `done` restores the very same active state, on which `commit_string`
succeeds again. -/
theorem C10_unavailable_not_terminal_witness :
    activeEmptyState.current.active = true ∧
    commit_string activeEmptyState ['z'] =
      some (Except.ok (),
        { activeEmptyState with pending := { activeEmptyState.pending with
            surrounding_text := ['z'], cursor := 1 } },
        [Request.commit_string ['z']]) := by
  have h := (C10_unavailable_not_terminal activeEmptyState activeEmptyState
    [Notification.activate_im,
     Notification.set_hint_purpose ContentHint.None ContentPurpose.Normal]).2
    rfl (by decide)
  refine ⟨h.1, ?_⟩
  rw [h.2.2 ['z'] [] [] (by decide)]
  decide

end IMS
